import Mathlib

/-!
# Verification of the mosaic layout core of `pdf_grid_showcase.py`

This file gives a shallow embedding of the pure layout computation
`create_mosaic(images, columns)` (the grid-layout core of the repository) and
proves the spec's claims about it.

Modelling choices:
* A PIL image is modelled as a `Bitmap`: integer dimensions plus a pixel
  function `px : Nat → Nat → Nat` (colors are abstract naturals); only the
  values of `px` at coordinates inside `width × height` are meaningful.
* `Image.paste(img, (x, y))` writes the source rectangle into the destination,
  clipped to the destination bounds, and is modelled by `Bitmap.paste`.
* Page counts, pixel sizes and coordinates are naturals: the CLI layer of the
  program guarantees `columns > 0` and `width > 0`, and PIL dimensions are
  non-negative.  `columns = 0` (Python raises `ZeroDivisionError` at
  `num_pages / columns`) and the empty-input `ValueError` are modelled as the
  explicit error results of `CreateMosaicError`.
* `math.ceil(num_pages / columns)` is modelled by exact ceiling division
  `ceil_div` (the float artifact for astronomically large page counts is out
  of scope).
* The `for i, img in enumerate(images)` loop is the index-carrying recursion
  `paste_pages`; the x/y computation of the loop body (lines 128-148 of the
  source) is split into `placeX` / `placeY` so that placements can be spoken
  about directly, exactly as the spec's `PlacePage` operation does.
-/

set_option autoImplicit false

namespace PdfGrid

/-- A raster image: a rectangular pixel grid.  `px u v` is the color at
column `u`, row `v`; values outside `width × height` are irrelevant. -/
structure Bitmap where
  width : Nat
  height : Nat
  px : Nat → Nat → Nat

instance : Inhabited Bitmap := ⟨⟨0, 0, fun _ _ => 0⟩⟩

/-- `Image.new('RGB', (w, h), color)`: a fresh `w × h` canvas filled with a
single color. -/
def Bitmap.new (w h color : Nat) : Bitmap :=
  ⟨w, h, fun _ _ => color⟩

/-- The background color `'black'` used for the canvas. -/
def black : Nat := 0

/-- `canvas.paste(img, (x, y))` of PIL: copies `img` onto `canvas` with its
top-left corner at `(x, y)`, silently clipping whatever falls outside the
canvas.  Pixels outside the pasted rectangle are untouched. -/
def Bitmap.paste (canvas img : Bitmap) (x y : Nat) : Bitmap :=
  { canvas with
    px := fun u v =>
      if x ≤ u ∧ u < x + img.width ∧ y ≤ v ∧ v < y + img.height ∧
          u < canvas.width ∧ v < canvas.height then
        img.px (u - x) (v - y)
      else
        canvas.px u v }

/-- Exact model of `math.ceil(a / b)` for naturals (meaningful for `b > 0`). -/
def ceil_div (a b : Nat) : Nat := (a + b - 1) / b

/-- `max(img.height for img in images)` — the canvas row height.  For the
empty list (never reached: `create_mosaic` errors first) the fold yields 0. -/
def maxHeight (images : List Bitmap) : Nat :=
  (images.map Bitmap.height).foldl max 0

/-- The x coordinate the loop body computes for page index `i`
(source lines 128-141): row-major column position, plus the centering offset
when the page sits in an incomplete last row. -/
def placeX (num_pages columns rows page_width i : Nat) : Nat :=
  let row := i / columns
  let col := i % columns
  if row = rows - 1 then
    let remaining_pages := num_pages - row * columns
    if remaining_pages < columns then
      let offset := (columns - remaining_pages) * page_width / 2
      col * page_width + offset
    else
      col * page_width
  else
    col * page_width

/-- The y coordinate the loop body computes for page index `i`
(source lines 143-148): the row's base line, plus vertical centering when the
page is shorter than the row height. -/
def placeY (columns page_height img_height i : Nat) : Nat :=
  let row := i / columns
  let y := row * page_height
  if img_height < page_height then
    y + (page_height - img_height) / 2
  else
    y

/-- The placement loop `for i, img in enumerate(images)` (source lines
127-151), started at index `i`. -/
def paste_pages (num_pages columns rows page_width page_height : Nat)
    (canvas : Bitmap) (i : Nat) : List Bitmap → Bitmap
  | [] => canvas
  | img :: rest =>
      paste_pages num_pages columns rows page_width page_height
        (canvas.paste img (placeX num_pages columns rows page_width i)
          (placeY columns page_height img.height i))
        (i + 1) rest

/-- The ways `create_mosaic` fails: the explicit
`ValueError("No images to create mosaic")` on empty input, and the
`ZeroDivisionError` that `num_pages / columns` raises when `columns = 0`
(the spec's `EmptyInputError` and `InvalidInputError` kinds). -/
inductive CreateMosaicError where
  | noImages : CreateMosaicError
  | zeroDivision : CreateMosaicError
deriving DecidableEq, Repr

/-- `create_mosaic(images, columns)` (source lines 104-153): canvas size
computation, black canvas allocation, and the placement loop. -/
def create_mosaic (images : List Bitmap) (columns : Nat) :
    Except CreateMosaicError Bitmap :=
  match images with
  | [] => .error .noImages
  | img0 :: rest =>
      if columns = 0 then .error .zeroDivision
      else
        let num_pages := (img0 :: rest).length
        let rows := ceil_div num_pages columns
        let page_width := img0.width
        let page_height := maxHeight (img0 :: rest)
        let mosaic_width := columns * page_width
        let mosaic_height := rows * page_height
        let mosaic := Bitmap.new mosaic_width mosaic_height black
        .ok (paste_pages num_pages columns rows page_width page_height
          mosaic 0 (img0 :: rest))

/-! ## Basic lemmas about the embedded operations -/

theorem Bitmap.paste_width (canvas img : Bitmap) (x y : Nat) :
    (canvas.paste img x y).width = canvas.width := rfl

theorem Bitmap.paste_height (canvas img : Bitmap) (x y : Nat) :
    (canvas.paste img x y).height = canvas.height := rfl

theorem paste_pages_width (num_pages columns rows page_width page_height : Nat)
    (canvas : Bitmap) (i : Nat) (l : List Bitmap) :
    (paste_pages num_pages columns rows page_width page_height canvas i l).width =
      canvas.width := by
  induction l generalizing canvas i with
  | nil => rfl
  | cons img rest ih => exact ih _ _

theorem paste_pages_height (num_pages columns rows page_width page_height : Nat)
    (canvas : Bitmap) (i : Nat) (l : List Bitmap) :
    (paste_pages num_pages columns rows page_width page_height canvas i l).height =
      canvas.height := by
  induction l generalizing canvas i with
  | nil => rfl
  | cons img rest ih => exact ih _ _

theorem le_mul_ceil_div (num c : Nat) (hc : 0 < c) : num ≤ c * ceil_div num c := by
  unfold ceil_div
  have h1 := Nat.div_add_mod (num + c - 1) c
  have h2 := Nat.mod_lt (num + c - 1) hc
  omega

theorem mul_ceil_div_lt (num c : Nat) (hc : 0 < c) :
    c * ceil_div num c < num + c := by
  unfold ceil_div
  have h1 := Nat.div_add_mod (num + c - 1) c
  have h2 := Nat.mod_lt (num + c - 1) hc
  omega

theorem ceil_div_pos (num c : Nat) (hc : 0 < c) (hn : 0 < num) :
    0 < ceil_div num c := by
  have := le_mul_ceil_div num c hc
  by_contra h
  have : ceil_div num c = 0 := by omega
  simp [this] at *
  omega

/-- Each page index below `num_pages` lands in a row below `rows`. -/
theorem row_lt_rows (num c i : Nat) (hc : 0 < c) (hi : i < num) :
    i / c < ceil_div num c := by
  have h := le_mul_ceil_div num c hc
  have : i < ceil_div num c * c := by
    calc i < num := hi
    _ ≤ c * ceil_div num c := h
    _ = ceil_div num c * c := Nat.mul_comm _ _
  exact Nat.div_lt_of_lt_mul (by omega)

theorem foldl_max_init_le (l : List Nat) (a : Nat) : a ≤ l.foldl max a := by
  induction l generalizing a with
  | nil => exact Nat.le_refl a
  | cons x xs ih => exact Nat.le_trans (Nat.le_max_left a x) (ih (max a x))

theorem foldl_max_le_of_mem (l : List Nat) (a x : Nat) (hx : x ∈ l) :
    x ≤ l.foldl max a := by
  induction l generalizing a with
  | nil => cases hx
  | cons y ys ih =>
      rcases List.mem_cons.mp hx with h | h
      · subst h
        exact Nat.le_trans (Nat.le_max_right a x) (foldl_max_init_le ys (max a x))
      · rw [List.foldl_cons]
        exact ih (max a y) h

theorem foldl_max_mem (l : List Nat) (a : Nat) :
    l.foldl max a = a ∨ l.foldl max a ∈ l := by
  induction l generalizing a with
  | nil => exact Or.inl rfl
  | cons x xs ih =>
      rcases ih (max a x) with h | h
      · rcases Nat.le_total a x with hax | hxa
        · right
          rw [List.foldl_cons, h, Nat.max_eq_right hax]
          exact List.mem_cons_self x xs
        · left
          rw [List.foldl_cons, h, Nat.max_eq_left hxa]
      · exact Or.inr (List.mem_cons_of_mem x h)

theorem height_le_maxHeight (images : List Bitmap) (b : Bitmap) (hb : b ∈ images) :
    b.height ≤ maxHeight images :=
  foldl_max_le_of_mem _ 0 _ (List.mem_map_of_mem Bitmap.height hb)

theorem maxHeight_mem (images : List Bitmap) (hne : images ≠ []) :
    ∃ b ∈ images, b.height = maxHeight images := by
  rcases foldl_max_mem (images.map Bitmap.height) 0 with h | h
  · match images, hne with
    | b0 :: rest, _ =>
        refine ⟨b0, List.mem_cons_self _ _, ?_⟩
        have hle := height_le_maxHeight (b0 :: rest) b0 (List.mem_cons_self _ _)
        have : maxHeight (b0 :: rest) = 0 := h
        omega
  · rcases List.mem_map.mp h with ⟨b, hb, hbh⟩
    exact ⟨b, hb, hbh⟩

/-- `placeX` rewritten branch-free: the column position plus a shared last-row
offset. -/
theorem placeX_eq (num c w i : Nat) :
    placeX num c (ceil_div num c) w i =
      if i / c = ceil_div num c - 1 ∧ num - (ceil_div num c - 1) * c < c then
        i % c * w + (c - (num - (ceil_div num c - 1) * c)) * w / 2
      else i % c * w := by
  unfold placeX
  by_cases h1 : i / c = ceil_div num c - 1
  · by_cases h2 : num - (ceil_div num c - 1) * c < c
    · simp [h1, h2]
    · simp [h1, h2]
  · simp [h1]

/-- On a non-empty list and non-zero columns, `create_mosaic` reaches the
placement loop over the freshly allocated black canvas. -/
theorem create_mosaic_ok (img0 : Bitmap) (rest : List Bitmap) (c : Nat)
    (hc : c ≠ 0) :
    create_mosaic (img0 :: rest) c =
      .ok (paste_pages (img0 :: rest).length c (ceil_div (img0 :: rest).length c)
        img0.width (maxHeight (img0 :: rest))
        (Bitmap.new (c * img0.width)
          (ceil_div (img0 :: rest).length c * maxHeight (img0 :: rest)) black)
        0 (img0 :: rest)) := by
  simp [create_mosaic, hc]

/-! ## The claims -/

/-- C1: for a non-empty page list of uniform positive width and `columns ≥ 1`,
`create_mosaic` succeeds with a canvas of width `columns * page_width` and
height `rows * page_height`, where `rows = ceil(page_count / columns) ≥ 1`
(characterised by `page_count ≤ columns * rows < page_count + columns`) and
`page_height` is the maximum height over the input bitmaps; the canvas
dimensions are exact multiples of the cell dimensions. -/
theorem claim1_canvas_size (images : List Bitmap) (c w : Nat)
    (hne : images ≠ []) (hw : ∀ b ∈ images, b.width = w) (hwpos : 0 < w)
    (hc : 1 ≤ c) :
    ∃ m, create_mosaic images c = .ok m ∧
      m.width = c * w ∧
      m.height = ceil_div images.length c * maxHeight images ∧
      1 ≤ ceil_div images.length c ∧
      images.length ≤ c * ceil_div images.length c ∧
      c * ceil_div images.length c < images.length + c ∧
      (∀ b ∈ images, b.height ≤ maxHeight images) ∧
      (∃ b ∈ images, b.height = maxHeight images) ∧
      m.width % w = 0 ∧ m.height % maxHeight images = 0 := by
  match images, hne with
  | img0 :: rest, hne =>
    have hc0 : c ≠ 0 := by omega
    have hw0 : img0.width = w := hw img0 (List.mem_cons_self _ _)
    refine ⟨_, create_mosaic_ok img0 rest c hc0, ?_, ?_, ?_, ?_, ?_, ?_, ?_, ?_, ?_⟩
    · rw [paste_pages_width]
      show c * img0.width = c * w
      rw [hw0]
    · rw [paste_pages_height]
      rfl
    · exact ceil_div_pos _ c (by omega) (by simp)
    · exact le_mul_ceil_div _ c (by omega)
    · exact mul_ceil_div_lt _ c (by omega)
    · exact fun b hb => height_le_maxHeight _ b hb
    · exact maxHeight_mem _ hne
    · rw [paste_pages_width]
      show c * img0.width % w = 0
      rw [hw0]
      exact Nat.mul_mod_left c w
    · rw [paste_pages_height]
      show ceil_div (img0 :: rest).length c * maxHeight (img0 :: rest) %
        maxHeight (img0 :: rest) = 0
      exact Nat.mul_mod_left _ _

/-- C2: placement is row-major (`row = i / columns`, `col = i % columns`, with
`row < rows`); outside the last row `x = col * page_width` exactly; in an
incomplete last row `x = col * page_width +
(columns - remaining) * page_width / 2`; in particular a single-row mosaic
with fewer pages than columns is centered the same way. -/
theorem claim2_row_major (num c w i : Nat) (hc : 1 ≤ c) (hi : i < num) :
    i / c < ceil_div num c ∧
    (i / c + 1 < ceil_div num c →
      placeX num c (ceil_div num c) w i = i % c * w) ∧
    (i / c + 1 = ceil_div num c → num - (ceil_div num c - 1) * c < c →
      placeX num c (ceil_div num c) w i =
        i % c * w + (c - (num - (ceil_div num c - 1) * c)) * w / 2) ∧
    (i / c + 1 = ceil_div num c → ¬ num - (ceil_div num c - 1) * c < c →
      placeX num c (ceil_div num c) w i = i % c * w) ∧
    (ceil_div num c = 1 → num < c →
      placeX num c (ceil_div num c) w i = i % c * w + (c - num) * w / 2) := by
  have hrow := row_lt_rows num c i (by omega) hi
  refine ⟨hrow, ?_, ?_, ?_, ?_⟩
  · intro h
    rw [placeX_eq, if_neg]
    rintro ⟨h1, -⟩
    omega
  · intro h1 h2
    rw [placeX_eq, if_pos ⟨Nat.eq_sub_of_add_eq h1, h2⟩]
  · intro h1 h2
    rw [placeX_eq, if_neg]
    rintro ⟨-, h3⟩
    exact h2 h3
  · intro h1 h2
    have hic : i / c = 0 := Nat.div_eq_of_lt (by omega)
    have hr : num - (ceil_div num c - 1) * c = num := by
      rw [h1]
      simp
    rw [placeX_eq, if_pos ⟨by rw [h1]; omega, by rw [h1]; omega⟩, hr]

/-- Witness for C1 at one 100×200 page and three columns. -/
theorem claim1_canvas_size_witness :
    (([Bitmap.new 100 200 0] : List Bitmap) ≠ [] ∧
      (∀ b ∈ [Bitmap.new 100 200 0], b.width = 100) ∧
      (0 : Nat) < 100 ∧ (1 : Nat) ≤ 3) ∧
    ∃ m, create_mosaic [Bitmap.new 100 200 0] 3 = .ok m ∧
      m.width = 3 * 100 ∧
      m.height = ceil_div 1 3 * maxHeight [Bitmap.new 100 200 0] ∧
      1 ≤ ceil_div 1 3 ∧
      1 ≤ 3 * ceil_div 1 3 ∧
      3 * ceil_div 1 3 < 1 + 3 ∧
      (∀ b ∈ [Bitmap.new 100 200 0], b.height ≤ maxHeight [Bitmap.new 100 200 0]) ∧
      (∃ b ∈ [Bitmap.new 100 200 0], b.height = maxHeight [Bitmap.new 100 200 0]) ∧
      m.width % 100 = 0 ∧ m.height % maxHeight [Bitmap.new 100 200 0] = 0 :=
  ⟨⟨List.cons_ne_nil _ _,
      fun b hb => by rw [List.mem_singleton] at hb; rw [hb]; rfl,
      by decide, by decide⟩,
    claim1_canvas_size [Bitmap.new 100 200 0] 3 100 (List.cons_ne_nil _ _)
      (fun b hb => by rw [List.mem_singleton] at hb; rw [hb]; rfl)
      (by decide) (by decide)⟩

/-- Witness for C2 at the 5-page, 3-column layout, page index 3. -/
theorem claim2_row_major_witness :
    ((1 : Nat) ≤ 3 ∧ (3 : Nat) < 5) ∧
    placeX 5 3 (ceil_div 5 3) 100 3 =
      3 % 3 * 100 + (3 - (5 - (ceil_div 5 3 - 1) * 3)) * 100 / 2 :=
  ⟨⟨by decide, by decide⟩,
    (claim2_row_major 5 3 100 3 (by decide) (by decide)).2.2.1
      (by decide) (by decide)⟩

/-- C3 counterexample: with pages of heights 2 and 1 (`page_height = 2`),
page index 1 (columns = 2, row 0) is shorter than `page_height` yet its `y`
is NOT strictly greater than `row * page_height`: the centering offset
`(2 - 1) / 2` is 0, so `y = row * page_height` exactly. -/
theorem claim3_counterexample :
    maxHeight [Bitmap.new 1 2 0, Bitmap.new 1 1 0] = 2 ∧ (1 : Nat) < 2 ∧
    ¬ (1 / 2 * 2 < placeY 2 2 1 1) := by decide

/-- C3 amended: a page of height `h ≤ page_height` is placed at
`y = row * page_height + (page_height - h) / 2`, which is at least
`row * page_height` — strictly greater only when `page_height - h ≥ 2` — and
a page of full height sits exactly at `row * page_height`. -/
theorem claim3_vertical_centering (c ph h i : Nat) (hle : h ≤ ph) :
    (h < ph → placeY c ph h i = i / c * ph + (ph - h) / 2 ∧
      i / c * ph ≤ placeY c ph h i ∧
      (2 ≤ ph - h → i / c * ph < placeY c ph h i)) ∧
    (h = ph → placeY c ph h i = i / c * ph) := by
  constructor
  · intro hlt
    unfold placeY
    rw [if_pos hlt]
    refine ⟨rfl, Nat.le_add_right _ _, ?_⟩
    intro h2
    exact Nat.lt_add_of_pos_right (by omega)
  · intro heq
    unfold placeY
    rw [heq, if_neg (lt_irrefl ph)]

/-- Witness for the amended C3 at `page_height = 200`, page height 150. -/
theorem claim3_vertical_centering_witness :
    ((150 : Nat) ≤ 200 ∧ (150 : Nat) < 200) ∧
    placeY 3 200 150 3 = 3 / 3 * 200 + (200 - 150) / 2 :=
  ⟨⟨by decide, by decide⟩,
    ((claim3_vertical_centering 3 200 150 3 (by decide)).1 (by decide)).1⟩

/-- C5 counterexample: in the 5-page, 3-column scenario the code places page
index 3 at x = 0·100 + 50 = 50 and page index 4 at x = 150 — not at 150 and
250 as the claim states (250 + 100 would even exceed the 300-pixel canvas). -/
theorem claim5_counterexample :
    ¬ (placeX 5 3 (ceil_div 5 3) 100 3 = 150 ∧
       placeX 5 3 (ceil_div 5 3) 100 4 = 250) := by decide

/-- The five pages of the spec's scenario: all 100 wide, heights
200, 200, 200, 150, 150. -/
def scenario_pages : List Bitmap :=
  [Bitmap.new 100 200 0, Bitmap.new 100 200 0, Bitmap.new 100 200 0,
   Bitmap.new 100 150 0, Bitmap.new 100 150 0]

/-- C5 amended: the scenario yields rows = 2, `page_height` = 200, a 300×400
mosaic, an incomplete last row with `remaining_pages = 2` and offset
`(3-2)*100/2 = 50`; page indices 3 and 4 land at x = 50 and x = 150 (columns
0 and 1 plus the offset), both at y = 200 + (200-150)/2 = 225. -/
theorem claim5_scenario :
    ceil_div 5 3 = 2 ∧
    maxHeight scenario_pages = 200 ∧
    (∃ m, create_mosaic scenario_pages 3 = .ok m ∧
      m.width = 300 ∧ m.height = 400) ∧
    5 - (ceil_div 5 3 - 1) * 3 = 2 ∧
    5 - (ceil_div 5 3 - 1) * 3 < 3 ∧
    (3 - (5 - (ceil_div 5 3 - 1) * 3)) * 100 / 2 = 50 ∧
    placeX 5 3 (ceil_div 5 3) 100 3 = 0 * 100 + 50 ∧
    placeX 5 3 (ceil_div 5 3) 100 4 = 1 * 100 + 50 ∧
    placeY 3 200 150 3 = 1 * 200 + (200 - 150) / 2 ∧
    placeY 3 200 150 4 = 225 := by
  refine ⟨by decide, by decide, ⟨_, rfl, rfl, rfl⟩, by decide, by decide,
    by decide, by decide, by decide, by decide, by decide⟩

/-- C6: on an empty page list `create_mosaic` fails with the empty-input
error (`ValueError("No images to create mosaic")`, the spec's
`EmptyInputError`) for every columns value, before any mosaic is produced. -/
theorem claim6_empty_input (c : Nat) :
    create_mosaic [] c = .error .noImages := rfl

/-- C7: on a non-empty page list with `columns < 1` the layout computation
fails fast — `num_pages / columns` raises `ZeroDivisionError` (the spec's
`InvalidInputError` kind) before any canvas is allocated or any page is
pasted. -/
theorem claim7_zero_columns (images : List Bitmap) (c : Nat)
    (hne : images ≠ []) (hc : c < 1) :
    create_mosaic images c = .error .zeroDivision := by
  match images, hne with
  | img0 :: rest, _ =>
    have hc0 : c = 0 := by omega
    subst hc0
    simp [create_mosaic]

/-- Witness for C7 at one page and zero columns. -/
theorem claim7_zero_columns_witness :
    ([Bitmap.new 1 1 0] ≠ [] ∧ (0 : Nat) < 1) ∧
    create_mosaic [Bitmap.new 1 1 0] 0 = .error .zeroDivision :=
  ⟨⟨List.cons_ne_nil _ _, Nat.zero_lt_one⟩,
    claim7_zero_columns [Bitmap.new 1 1 0] 0 (List.cons_ne_nil _ _)
      Nat.zero_lt_one⟩

/-- C10: the cell width comes exclusively from the first image — no error is
raised and the mosaic width is `columns * images[0].width` whatever the
widths of the later images (width uniformity is not validated). -/
theorem claim10_width_from_first (img0 : Bitmap) (rest : List Bitmap)
    (c : Nat) (hc : 1 ≤ c) :
    ∃ m, create_mosaic (img0 :: rest) c = .ok m ∧ m.width = c * img0.width := by
  have hc0 : c ≠ 0 := by omega
  refine ⟨_, create_mosaic_ok img0 rest c hc0, ?_⟩
  rw [paste_pages_width]
  rfl

/-- Witness for C10 with a second image of a different width. -/
theorem claim10_width_from_first_witness :
    (1 : Nat) ≤ 2 ∧
    ∃ m, create_mosaic [Bitmap.new 100 10 0, Bitmap.new 37 20 0] 2 = .ok m ∧
      m.width = 2 * (Bitmap.new 100 10 0).width :=
  ⟨by decide,
    claim10_width_from_first (Bitmap.new 100 10 0) [Bitmap.new 37 20 0] 2
      (by decide)⟩

/-! ## Determinism (C9): pixel-identical inputs give pixel-identical output -/

/-- Pixel-identical bitmaps: same dimensions, same color at every in-range
coordinate (the pixel functions may differ outside the image). -/
def BitmapEquiv (a b : Bitmap) : Prop :=
  a.width = b.width ∧ a.height = b.height ∧
  ∀ u v, u < a.width → v < a.height → a.px u v = b.px u v

theorem BitmapEquiv.refl (a : Bitmap) : BitmapEquiv a a :=
  ⟨rfl, rfl, fun _ _ _ _ => rfl⟩

/-- Pixel-identical outcomes of `create_mosaic`: equal errors, or
pixel-identical mosaics. -/
def ResultEquiv :
    Except CreateMosaicError Bitmap → Except CreateMosaicError Bitmap → Prop
  | .error e1, .error e2 => e1 = e2
  | .ok m1, .ok m2 => BitmapEquiv m1 m2
  | _, _ => False

theorem paste_congr (c1 c2 i1 i2 : Bitmap) (x y : Nat)
    (hc : BitmapEquiv c1 c2) (hi : BitmapEquiv i1 i2) :
    BitmapEquiv (c1.paste i1 x y) (c2.paste i2 x y) := by
  obtain ⟨hcw, hch, hcp⟩ := hc
  obtain ⟨hiw, hih, hip⟩ := hi
  refine ⟨hcw, hch, ?_⟩
  intro u v hu hv
  have hu' : u < c1.width := hu
  have hv' : v < c1.height := hv
  show (c1.paste i1 x y).px u v = (c2.paste i2 x y).px u v
  simp only [Bitmap.paste]
  by_cases h : x ≤ u ∧ u < x + i1.width ∧ y ≤ v ∧ v < y + i1.height ∧
      u < c1.width ∧ v < c1.height
  · rw [if_pos h, if_pos (by rw [← hiw, ← hih, ← hcw, ← hch]; exact h)]
    exact hip (u - x) (v - y) (by omega) (by omega)
  · rw [if_neg h, if_neg (by rw [← hiw, ← hih, ← hcw, ← hch]; exact h)]
    exact hcp u v hu' hv'

theorem forall₂_heights_eq (l1 l2 : List Bitmap)
    (h : List.Forall₂ BitmapEquiv l1 l2) :
    l1.map Bitmap.height = l2.map Bitmap.height := by
  induction h with
  | nil => rfl
  | cons hh ht ih => simp [hh.2.1, ih]

theorem paste_pages_congr (num c rows w ph : Nat) (canvas1 canvas2 : Bitmap)
    (i : Nat) (l1 l2 : List Bitmap) (hc : BitmapEquiv canvas1 canvas2)
    (hl : List.Forall₂ BitmapEquiv l1 l2) :
    BitmapEquiv (paste_pages num c rows w ph canvas1 i l1)
      (paste_pages num c rows w ph canvas2 i l2) := by
  induction hl generalizing canvas1 canvas2 i with
  | nil => exact hc
  | cons hh ht ih =>
      rename_i a b tl1 tl2
      show BitmapEquiv
        (paste_pages num c rows w ph
          (canvas1.paste a (placeX num c rows w i) (placeY c ph a.height i))
          (i + 1) tl1)
        (paste_pages num c rows w ph
          (canvas2.paste b (placeX num c rows w i) (placeY c ph b.height i))
          (i + 1) tl2)
      rw [← hh.2.1]
      exact ih _ _ _ (paste_congr _ _ _ _ _ _ hc hh)

/-- C9: `create_mosaic` is deterministic in its inputs — two calls with
pixel-identical input bitmaps and the same columns value either fail with
the same error or produce pixel-identical mosaics. -/
theorem claim9_deterministic (l1 l2 : List Bitmap) (c : Nat)
    (h : List.Forall₂ BitmapEquiv l1 l2) :
    ResultEquiv (create_mosaic l1 c) (create_mosaic l2 c) := by
  cases h with
  | nil => show CreateMosaicError.noImages = .noImages; rfl
  | cons hh ht =>
      rename_i a b tl1 tl2
      by_cases hc : c = 0
      · subst hc
        show CreateMosaicError.zeroDivision = .zeroDivision
        rfl
      · rw [create_mosaic_ok a tl1 c hc, create_mosaic_ok b tl2 c hc]
        show BitmapEquiv _ _
        have hlen : (a :: tl1).length = (b :: tl2).length := by
          simp [List.Forall₂.length_eq ht]
        have hw : a.width = b.width := hh.1
        have hmax : maxHeight (a :: tl1) = maxHeight (b :: tl2) := by
          unfold maxHeight
          rw [forall₂_heights_eq _ _ (List.Forall₂.cons hh ht)]
        rw [← hlen, ← hw, ← hmax]
        exact paste_pages_congr _ _ _ _ _ _ _ _ _ _ (BitmapEquiv.refl _)
          (List.Forall₂.cons hh ht)

/-- Witness for C9: two single-page inputs whose bitmaps agree on every
in-range pixel but differ as functions outside the image. -/
theorem claim9_deterministic_witness :
    List.Forall₂ BitmapEquiv [Bitmap.new 2 2 5]
      [Bitmap.mk 2 2 (fun u v => if u < 2 ∧ v < 2 then 5 else 9)] ∧
    ResultEquiv (create_mosaic [Bitmap.new 2 2 5] 1)
      (create_mosaic
        [Bitmap.mk 2 2 (fun u v => if u < 2 ∧ v < 2 then 5 else 9)] 1) :=
  ⟨List.Forall₂.cons
      ⟨rfl, rfl, fun u v hu hv => (if_pos ⟨hu, hv⟩).symm⟩ List.Forall₂.nil,
    claim9_deterministic _ _ 1
      (List.Forall₂.cons
        ⟨rfl, rfl, fun u v hu hv => (if_pos ⟨hu, hv⟩).symm⟩ List.Forall₂.nil)⟩

/-! ## Frame property (C8): only the fresh canvas object is written

Python bitmaps are mutable objects; `mosaic.paste(img, ...)` writes into the
object `mosaic` refers to.  To state that `create_mosaic` never mutates an
input bitmap, the computation is replayed over an explicit object store:
bitmap objects live in a `Store`, pages are references into it, and the
canvas is allocated as a fresh object. -/

/-- A heap of bitmap objects; a reference is an index into the store. -/
abbrev Store := List Bitmap

/-- `dst.paste(src, (x, y))` at the object level: the object `dst` is
updated in place; every other object is untouched. -/
def storePaste (s : Store) (dst : Nat) (src : Bitmap) (x y : Nat) : Store :=
  List.set s dst ((List.getD s dst default).paste src x y)

/-- The placement loop at the object level: page `r` is read from the store
and pasted into the canvas object `dst`. -/
def paste_pages_store (num c rows w ph dst : Nat) :
    Store → Nat → List Nat → Store
  | s, _, [] => s
  | s, i, r :: rest =>
      paste_pages_store num c rows w ph dst
        (storePaste s dst (List.getD s r default) (placeX num c rows w i)
          (placeY c ph (List.getD s r default).height i))
        (i + 1) rest

/-- `create_mosaic` at the object level: returns the updated store and the
reference of the freshly allocated canvas. -/
def create_mosaic_store (s : Store) (refs : List Nat) (columns : Nat) :
    Except CreateMosaicError (Store × Nat) :=
  match refs with
  | [] => .error .noImages
  | r0 :: rest =>
      if columns = 0 then .error .zeroDivision
      else
        let num_pages := (r0 :: rest).length
        let rows := ceil_div num_pages columns
        let page_width := (List.getD s r0 default).width
        let page_height :=
          maxHeight ((r0 :: rest).map (fun r => List.getD s r default))
        let mosaic_width := columns * page_width
        let mosaic_height := rows * page_height
        let dst := List.length s
        let s1 := s ++ [Bitmap.new mosaic_width mosaic_height black]
        .ok (paste_pages_store num_pages columns rows page_width page_height
          dst s1 0 (r0 :: rest), dst)

theorem storePaste_length (s : Store) (dst : Nat) (src : Bitmap) (x y : Nat) :
    List.length (storePaste s dst src x y) = List.length s :=
  List.length_set s dst _

theorem storePaste_getD_ne (s : Store) (dst j : Nat) (src : Bitmap)
    (x y : Nat) (h : j ≠ dst) :
    List.getD (storePaste s dst src x y) j default = List.getD s j default := by
  unfold storePaste
  rw [List.getD_eq_getElem?_getD, List.getElem?_set_ne (Ne.symm h),
    ← List.getD_eq_getElem?_getD]

theorem paste_pages_store_length (num c rows w ph dst : Nat) (s : Store)
    (i : Nat) (refs : List Nat) :
    List.length (paste_pages_store num c rows w ph dst s i refs) =
      List.length s := by
  induction refs generalizing s i with
  | nil => rfl
  | cons r rest ih =>
      show List.length (paste_pages_store num c rows w ph dst _ (i + 1) rest) = _
      rw [ih, storePaste_length]

/-- The loop writes only the canvas object: every other reference reads the
same bitmap afterwards. -/
theorem paste_pages_store_frame (num c rows w ph dst : Nat) (s : Store)
    (i : Nat) (refs : List Nat) (j : Nat) (hj : j ≠ dst) :
    List.getD (paste_pages_store num c rows w ph dst s i refs) j default =
      List.getD s j default := by
  induction refs generalizing s i with
  | nil => rfl
  | cons r rest ih =>
      show List.getD (paste_pages_store num c rows w ph dst _ (i + 1) rest)
        j default = _
      rw [ih, storePaste_getD_ne _ _ _ _ _ _ hj]

/-- On a non-empty reference list and non-zero columns,
`create_mosaic_store` allocates the canvas at the fresh reference
`s.length` and runs the placement loop over the extended store. -/
theorem create_mosaic_store_ok (s : Store) (r0 : Nat) (rest : List Nat)
    (c : Nat) (hc : c ≠ 0) :
    create_mosaic_store s (r0 :: rest) c =
      .ok (paste_pages_store (r0 :: rest).length c
        (ceil_div (r0 :: rest).length c) (List.getD s r0 default).width
        (maxHeight ((r0 :: rest).map (fun r => List.getD s r default)))
        (List.length s)
        (s ++ [Bitmap.new (c * (List.getD s r0 default).width)
          (ceil_div (r0 :: rest).length c *
            maxHeight ((r0 :: rest).map (fun r => List.getD s r default)))
          black])
        0 (r0 :: rest), List.length s) := by
  simp [create_mosaic_store, hc]

/-- C8: `create_mosaic` mutates no input bitmap — the canvas is a fresh
object (reference `s.length`), the store grows by exactly that object, and
every pre-existing object is unchanged after the call. -/
theorem claim8_no_input_mutation (s : Store) (refs : List Nat) (c : Nat)
    (hne : refs ≠ []) (hc : 1 ≤ c) :
    ∃ s', create_mosaic_store s refs c = .ok (s', List.length s) ∧
      List.length s' = List.length s + 1 ∧
      ∀ j, j < List.length s →
        List.getD s' j default = List.getD s j default := by
  match refs, hne with
  | r0 :: rest, _ =>
    have hc0 : c ≠ 0 := by omega
    refine ⟨_, create_mosaic_store_ok s r0 rest c hc0, ?_, ?_⟩
    · rw [paste_pages_store_length]
      simp [List.length_append]
    · intro j hj
      rw [paste_pages_store_frame _ _ _ _ _ _ _ _ _ _ (by omega)]
      rw [List.getD_eq_getElem?_getD, List.getElem?_append_left hj,
        ← List.getD_eq_getElem?_getD]

/-- Witness for C8: one stored page, one column. -/
theorem claim8_no_input_mutation_witness :
    (([0] : List Nat) ≠ [] ∧ (1 : Nat) ≤ 1) ∧
    ∃ s', create_mosaic_store [Bitmap.new 1 1 7] [0] 1 =
        .ok (s', List.length [Bitmap.new 1 1 7]) ∧
      List.length s' = List.length [Bitmap.new 1 1 7] + 1 ∧
      ∀ j, j < List.length [Bitmap.new 1 1 7] →
        List.getD s' j default = List.getD [Bitmap.new 1 1 7] j default :=
  ⟨⟨List.cons_ne_nil _ _, Nat.le_refl 1⟩,
    claim8_no_input_mutation [Bitmap.new 1 1 7] [0] 1 (List.cons_ne_nil _ _)
      (Nat.le_refl 1)⟩

/-! ## Geometry of the placements (C4) -/

/-- The pasted rectangle of a page stays inside the canvas width. -/
theorem placeX_add_width_le (num c w i : Nat) (hc : 0 < c) (hi : i < num) :
    placeX num c (ceil_div num c) w i + w ≤ c * w := by
  rw [placeX_eq]
  by_cases h : i / c = ceil_div num c - 1 ∧
      num - (ceil_div num c - 1) * c < c
  · rw [if_pos h]
    obtain ⟨h1, h2⟩ := h
    have hmod : c * (i / c) + i % c = i := Nat.div_add_mod i c
    rw [h1, Nat.mul_comm] at hmod
    have hcol : i % c + 1 ≤ num - (ceil_div num c - 1) * c := by omega
    have h3 : (c - (num - (ceil_div num c - 1) * c)) * w / 2 ≤
        (c - (num - (ceil_div num c - 1) * c)) * w := Nat.div_le_self _ _
    have h4 : (i % c + 1) * w ≤ (num - (ceil_div num c - 1) * c) * w :=
      Nat.mul_le_mul_right w hcol
    have h5 : (num - (ceil_div num c - 1) * c) * w +
        (c - (num - (ceil_div num c - 1) * c)) * w = c * w := by
      rw [← Nat.add_mul]
      congr 1
      omega
    have h6 : (i % c + 1) * w = i % c * w + w := Nat.succ_mul _ _
    omega
  · rw [if_neg h]
    have hcol : i % c < c := Nat.mod_lt i hc
    have h4 : (i % c + 1) * w ≤ c * w := Nat.mul_le_mul_right w hcol
    have h6 : (i % c + 1) * w = i % c * w + w := Nat.succ_mul _ _
    omega

/-- A page's vertical extent stays inside its row's band
`[row * page_height, (row + 1) * page_height)`. -/
theorem placeY_band (c ph h i : Nat) (hh : h ≤ ph) :
    i / c * ph ≤ placeY c ph h i ∧
    placeY c ph h i + h ≤ (i / c + 1) * ph := by
  unfold placeY
  have hs : (i / c + 1) * ph = i / c * ph + ph := Nat.succ_mul _ _
  by_cases hlt : h < ph
  · rw [if_pos hlt]
    have h1 : (ph - h) / 2 ≤ ph - h := Nat.div_le_self _ _
    omega
  · rw [if_neg hlt]
    omega

/-- Pages in different rows are vertically separated. -/
theorem placeY_row_sep (c ph h1 h2 i j : Nat) (hh1 : h1 ≤ ph)
    (hh2 : h2 ≤ ph) (hrow : i / c < j / c) :
    placeY c ph h1 i + h1 ≤ placeY c ph h2 j := by
  have b1 := placeY_band c ph h1 i hh1
  have b2 := placeY_band c ph h2 j hh2
  have hm : (i / c + 1) * ph ≤ j / c * ph := Nat.mul_le_mul_right ph hrow
  omega

/-- Pages in the same row but different columns are horizontally
separated (both receive the same last-row offset). -/
theorem placeX_col_sep (num c w i j : Nat)
    (hrow : i / c = j / c) (hcol : i % c < j % c) :
    placeX num c (ceil_div num c) w i + w ≤
      placeX num c (ceil_div num c) w j := by
  rw [placeX_eq, placeX_eq, hrow]
  have h4 : (i % c + 1) * w ≤ j % c * w := Nat.mul_le_mul_right w hcol
  have h6 : (i % c + 1) * w = i % c * w + w := Nat.succ_mul _ _
  by_cases h : j / c = ceil_div num c - 1 ∧
      num - (ceil_div num c - 1) * c < c
  · rw [if_pos h, if_pos h]
    omega
  · rw [if_neg h, if_neg h]
    omega

/-- Two distinct page indices occupy the same or different rows; either way
their placement rectangles are disjoint. -/
theorem placements_disjoint (num c w ph hi_ hj_ : Nat) (i j : Nat)
    (hc : 0 < c) (hij : i ≠ j) (hhi : hi_ ≤ ph) (hhj : hj_ ≤ ph) :
    placeX num c (ceil_div num c) w i + w ≤ placeX num c (ceil_div num c) w j ∨
    placeX num c (ceil_div num c) w j + w ≤ placeX num c (ceil_div num c) w i ∨
    placeY c ph hi_ i + hi_ ≤ placeY c ph hj_ j ∨
    placeY c ph hj_ j + hj_ ≤ placeY c ph hi_ i := by
  rcases Nat.lt_trichotomy (i / c) (j / c) with hrow | hrow | hrow
  · exact Or.inr (Or.inr (Or.inl (placeY_row_sep c ph hi_ hj_ i j hhi hhj hrow)))
  · have hcol : i % c ≠ j % c := by
      intro hmod
      have di := Nat.div_add_mod i c
      have dj := Nat.div_add_mod j c
      rw [hrow, hmod] at di
      omega
    rcases Nat.lt_or_ge (i % c) (j % c) with hlt | hge
    · exact Or.inl (placeX_col_sep num c w i j hrow hlt)
    · have hlt : j % c < i % c := by omega
      exact Or.inr (Or.inl (placeX_col_sep num c w j i hrow.symm hlt))
  · exact Or.inr (Or.inr (Or.inr (placeY_row_sep c ph hj_ hi_ j i hhj hhi hrow)))

/-- `paste` leaves every pixel outside the pasted rectangle unchanged. -/
theorem paste_px_outside (canvas img : Bitmap) (x y p q : Nat)
    (h : ¬ (x ≤ p ∧ p < x + img.width ∧ y ≤ q ∧ q < y + img.height)) :
    (canvas.paste img x y).px p q = canvas.px p q := by
  simp only [Bitmap.paste]
  rw [if_neg]
  rintro ⟨h1, h2, h3, h4, -, -⟩
  exact h ⟨h1, h2, h3, h4⟩

/-- Inside the destination rectangle (and inside the canvas), `paste`
reproduces the source pixel exactly — no cropping happens when the
rectangle fits. -/
theorem paste_px_inside (canvas img : Bitmap) (x y u v : Nat)
    (hu : u < img.width) (hv : v < img.height)
    (hx : x + u < canvas.width) (hy : y + v < canvas.height) :
    (canvas.paste img x y).px (x + u) (y + v) = img.px u v := by
  simp only [Bitmap.paste]
  rw [if_pos ⟨Nat.le_add_right x u, by omega, Nat.le_add_right y v, by omega,
    hx, hy⟩]
  rw [Nat.add_sub_cancel_left, Nat.add_sub_cancel_left]

/-- The placement loop leaves a pixel untouched when it lies outside every
remaining page's placement rectangle. -/
theorem paste_pages_px_preserved (num c rows w ph : Nat) :
    ∀ (l : List Bitmap) (canvas : Bitmap) (i₀ p q : Nat),
    (∀ k, k < l.length →
      ¬ (placeX num c rows w (i₀ + k) ≤ p ∧
         p < placeX num c rows w (i₀ + k) + (l.getD k default).width ∧
         placeY c ph (l.getD k default).height (i₀ + k) ≤ q ∧
         q < placeY c ph (l.getD k default).height (i₀ + k) +
           (l.getD k default).height)) →
    (paste_pages num c rows w ph canvas i₀ l).px p q = canvas.px p q := by
  intro l
  induction l with
  | nil => intro canvas i₀ p q hout; rfl
  | cons img rest ih =>
      intro canvas i₀ p q hout
      show (paste_pages num c rows w ph
        (canvas.paste img (placeX num c rows w i₀)
          (placeY c ph img.height i₀)) (i₀ + 1) rest).px p q = canvas.px p q
      have hrest : ∀ k, k < rest.length →
          ¬ (placeX num c rows w (i₀ + 1 + k) ≤ p ∧
             p < placeX num c rows w (i₀ + 1 + k) + (rest.getD k default).width ∧
             placeY c ph (rest.getD k default).height (i₀ + 1 + k) ≤ q ∧
             q < placeY c ph (rest.getD k default).height (i₀ + 1 + k) +
               (rest.getD k default).height) := by
        intro k hk
        have h := hout (k + 1) (by simpa using Nat.succ_lt_succ hk)
        have e : i₀ + (k + 1) = i₀ + 1 + k := by omega
        rw [e] at h
        exact h
      rw [ih _ _ _ _ hrest]
      refine paste_px_outside canvas img _ _ p q ?_
      have h0 := hout 0 (Nat.succ_pos _)
      exact h0

/-- After the placement loop, the canvas holds each processed page's pixels
verbatim at its placement rectangle: the rectangles fit in the canvas and
are pairwise disjoint, so no later paste overwrites an earlier page. -/
theorem paste_pages_px_target (num c rows w ph : Nat) :
    ∀ (l : List Bitmap) (canvas : Bitmap) (i₀ k : Nat), k < l.length →
    (∀ j, j < l.length →
      placeX num c rows w (i₀ + j) + (l.getD j default).width ≤
        canvas.width ∧
      placeY c ph (l.getD j default).height (i₀ + j) +
        (l.getD j default).height ≤ canvas.height) →
    (∀ j1 j2, j1 < l.length → j2 < l.length → j1 ≠ j2 →
      placeX num c rows w (i₀ + j1) + (l.getD j1 default).width ≤
        placeX num c rows w (i₀ + j2) ∨
      placeX num c rows w (i₀ + j2) + (l.getD j2 default).width ≤
        placeX num c rows w (i₀ + j1) ∨
      placeY c ph (l.getD j1 default).height (i₀ + j1) +
        (l.getD j1 default).height ≤
        placeY c ph (l.getD j2 default).height (i₀ + j2) ∨
      placeY c ph (l.getD j2 default).height (i₀ + j2) +
        (l.getD j2 default).height ≤
        placeY c ph (l.getD j1 default).height (i₀ + j1)) →
    ∀ u v, u < (l.getD k default).width → v < (l.getD k default).height →
    (paste_pages num c rows w ph canvas i₀ l).px
      (placeX num c rows w (i₀ + k) + u)
      (placeY c ph (l.getD k default).height (i₀ + k) + v) =
      (l.getD k default).px u v := by
  intro l
  induction l with
  | nil => intro canvas i₀ k hk; exact absurd hk (Nat.not_lt_zero k)
  | cons img rest ih =>
      intro canvas i₀ k hk hbound hdisj u v hu hv
      cases k with
      | zero =>
          simp only [Nat.add_zero]
          show (paste_pages num c rows w ph
            (canvas.paste img (placeX num c rows w i₀)
              (placeY c ph img.height i₀)) (i₀ + 1) rest).px
            (placeX num c rows w i₀ + u)
            (placeY c ph img.height i₀ + v) = img.px u v
          have hu' : u < img.width := hu
          have hv' : v < img.height := hv
          rw [paste_pages_px_preserved num c rows w ph rest _ (i₀ + 1)
            (placeX num c rows w i₀ + u) (placeY c ph img.height i₀ + v) ?_]
          · have hb := hbound 0 (Nat.succ_pos _)
            simp only [Nat.add_zero, List.getD_cons_zero] at hb
            exact paste_px_inside canvas img _ _ u v hu' hv'
              (by have := hb.1; omega) (by have := hb.2; omega)
          · intro j hj
            have hd := hdisj 0 (j + 1) (Nat.succ_pos _)
              (by simpa using Nat.succ_lt_succ hj) (by omega)
            simp only [Nat.add_zero, List.getD_cons_zero,
              List.getD_cons_succ] at hd
            have e : i₀ + (j + 1) = i₀ + 1 + j := by omega
            rw [e] at hd
            rintro ⟨c1, c2, c3, c4⟩
            rcases hd with hd | hd | hd | hd
            · omega
            · omega
            · omega
            · omega
      | succ a =>
          show (paste_pages num c rows w ph
            (canvas.paste img (placeX num c rows w i₀)
              (placeY c ph img.height i₀)) (i₀ + 1) rest).px
            (placeX num c rows w (i₀ + (a + 1)) + u)
            (placeY c ph (rest.getD a default).height (i₀ + (a + 1)) + v) =
            (rest.getD a default).px u v
          have e : i₀ + (a + 1) = i₀ + 1 + a := by omega
          rw [e]
          refine ih _ (i₀ + 1) a (by simpa using hk) ?_ ?_ u v hu hv
          · intro j hj
            have hb := hbound (j + 1) (by simpa using Nat.succ_lt_succ hj)
            have e2 : i₀ + (j + 1) = i₀ + 1 + j := by omega
            rw [e2] at hb
            exact hb
          · intro j1 j2 hj1 hj2 hne
            have hd := hdisj (j1 + 1) (j2 + 1)
              (by simpa using Nat.succ_lt_succ hj1)
              (by simpa using Nat.succ_lt_succ hj2) (by omega)
            have e1 : i₀ + (j1 + 1) = i₀ + 1 + j1 := by omega
            have e2 : i₀ + (j2 + 1) = i₀ + 1 + j2 := by omega
            rw [e1, e2] at hd
            exact hd

/-- C4: for a non-empty page list of uniform positive width, positive
heights and `columns ≥ 1`: the placement rectangles of distinct pages are
disjoint, every rectangle lies inside the canvas
`[0, columns*page_width) × [0, rows*page_height)`, and consequently the
produced mosaic holds every page's pixels verbatim at its rectangle — each
page is pasted fully inside the canvas with no cropping. -/
theorem claim4_no_overlap_in_bounds (images : List Bitmap) (c w : Nat)
    (hne : images ≠ []) (hw : ∀ b ∈ images, b.width = w) (hwpos : 0 < w)
    (hhpos : ∀ b ∈ images, 0 < b.height) (hc : 1 ≤ c) :
    (∀ i j, i < images.length → j < images.length → i ≠ j →
      placeX images.length c (ceil_div images.length c) w i + w ≤
        placeX images.length c (ceil_div images.length c) w j ∨
      placeX images.length c (ceil_div images.length c) w j + w ≤
        placeX images.length c (ceil_div images.length c) w i ∨
      placeY c (maxHeight images) (images.getD i default).height i +
        (images.getD i default).height ≤
        placeY c (maxHeight images) (images.getD j default).height j ∨
      placeY c (maxHeight images) (images.getD j default).height j +
        (images.getD j default).height ≤
        placeY c (maxHeight images) (images.getD i default).height i) ∧
    (∀ i, i < images.length →
      placeX images.length c (ceil_div images.length c) w i + w ≤ c * w ∧
      placeY c (maxHeight images) (images.getD i default).height i +
        (images.getD i default).height ≤
        ceil_div images.length c * maxHeight images) ∧
    (∃ m, create_mosaic images c = .ok m ∧
      ∀ i, i < images.length → ∀ u v, u < w →
        v < (images.getD i default).height →
        m.px (placeX images.length c (ceil_div images.length c) w i + u)
          (placeY c (maxHeight images) (images.getD i default).height i + v) =
          (images.getD i default).px u v) := by
  obtain ⟨img0, rest, rfl⟩ : ∃ a l, images = a :: l := by
    cases images with
    | nil => exact absurd rfl hne
    | cons a l => exact ⟨a, l, rfl⟩
  have hw0 : img0.width = w := hw img0 (List.mem_cons_self _ _)
  subst hw0
  have hc0 : 0 < c := hc
  have hmem : ∀ i, i < (img0 :: rest).length →
      (img0 :: rest).getD i default ∈ img0 :: rest := by
    intro i hi
    rw [List.getD_eq_getElem _ _ hi]
    exact List.getElem_mem _
  have hdisj : ∀ i j, i < (img0 :: rest).length → j < (img0 :: rest).length →
      i ≠ j →
      placeX (img0 :: rest).length c (ceil_div (img0 :: rest).length c)
        img0.width i + img0.width ≤
        placeX (img0 :: rest).length c (ceil_div (img0 :: rest).length c)
          img0.width j ∨
      placeX (img0 :: rest).length c (ceil_div (img0 :: rest).length c)
        img0.width j + img0.width ≤
        placeX (img0 :: rest).length c (ceil_div (img0 :: rest).length c)
          img0.width i ∨
      placeY c (maxHeight (img0 :: rest))
        ((img0 :: rest).getD i default).height i +
        ((img0 :: rest).getD i default).height ≤
        placeY c (maxHeight (img0 :: rest))
          ((img0 :: rest).getD j default).height j ∨
      placeY c (maxHeight (img0 :: rest))
        ((img0 :: rest).getD j default).height j +
        ((img0 :: rest).getD j default).height ≤
        placeY c (maxHeight (img0 :: rest))
          ((img0 :: rest).getD i default).height i := by
    intro i j hi hj hij
    exact placements_disjoint (img0 :: rest).length c img0.width
      (maxHeight (img0 :: rest)) _ _ i j hc0 hij
      (height_le_maxHeight _ _ (hmem i hi))
      (height_le_maxHeight _ _ (hmem j hj))
  have hboundX : ∀ i, i < (img0 :: rest).length →
      placeX (img0 :: rest).length c (ceil_div (img0 :: rest).length c)
        img0.width i + img0.width ≤ c * img0.width :=
    fun i hi => placeX_add_width_le _ c _ i hc0 hi
  have hboundY : ∀ i, i < (img0 :: rest).length →
      placeY c (maxHeight (img0 :: rest))
        ((img0 :: rest).getD i default).height i +
        ((img0 :: rest).getD i default).height ≤
        ceil_div (img0 :: rest).length c * maxHeight (img0 :: rest) := by
    intro i hi
    have hh := height_le_maxHeight _ _ (hmem i hi)
    have hb := placeY_band c (maxHeight (img0 :: rest))
      ((img0 :: rest).getD i default).height i hh
    have hr := row_lt_rows (img0 :: rest).length c i hc0 hi
    have hm : (i / c + 1) * maxHeight (img0 :: rest) ≤
        ceil_div (img0 :: rest).length c * maxHeight (img0 :: rest) :=
      Nat.mul_le_mul_right _ (by omega)
    omega
  refine ⟨hdisj, fun i hi => ⟨hboundX i hi, hboundY i hi⟩,
    _, create_mosaic_ok img0 rest c (by omega), ?_⟩
  intro i hi u v hu hv
  have htar := paste_pages_px_target (img0 :: rest).length c
    (ceil_div (img0 :: rest).length c) img0.width (maxHeight (img0 :: rest))
    (img0 :: rest)
    (Bitmap.new (c * img0.width)
      (ceil_div (img0 :: rest).length c * maxHeight (img0 :: rest)) black)
    0 i hi ?_ ?_ u v ?_ ?_
  · simp only [Nat.zero_add] at htar
    exact htar
  · intro j hj
    have hwj : ((img0 :: rest).getD j default).width = img0.width :=
      hw _ (hmem j hj)
    constructor
    · rw [Nat.zero_add, hwj]
      exact hboundX j hj
    · rw [Nat.zero_add]
      exact hboundY j hj
  · intro j1 j2 hj1 hj2 hne12
    have hw1 : ((img0 :: rest).getD j1 default).width = img0.width :=
      hw _ (hmem j1 hj1)
    have hw2 : ((img0 :: rest).getD j2 default).width = img0.width :=
      hw _ (hmem j2 hj2)
    simp only [Nat.zero_add, hw1, hw2]
    exact hdisj j1 j2 hj1 hj2 hne12
  · rw [hw _ (hmem i hi)]
    exact hu
  · exact hv

/-- Witness for C4 at a single 1×1 page and one column. -/
theorem claim4_no_overlap_in_bounds_witness :
    (([Bitmap.new 1 1 0] : List Bitmap) ≠ [] ∧
      (∀ b ∈ [Bitmap.new 1 1 0], b.width = 1) ∧ (0 : Nat) < 1 ∧
      (∀ b ∈ [Bitmap.new 1 1 0], 0 < b.height) ∧ (1 : Nat) ≤ 1) ∧
    (∃ m, create_mosaic [Bitmap.new 1 1 0] 1 = .ok m ∧
      ∀ i, i < ([Bitmap.new 1 1 0] : List Bitmap).length → ∀ u v, u < 1 →
        v < (([Bitmap.new 1 1 0] : List Bitmap).getD i default).height →
        m.px (placeX ([Bitmap.new 1 1 0] : List Bitmap).length 1
            (ceil_div ([Bitmap.new 1 1 0] : List Bitmap).length 1) 1 i + u)
          (placeY 1 (maxHeight [Bitmap.new 1 1 0])
            (([Bitmap.new 1 1 0] : List Bitmap).getD i default).height i + v) =
          (([Bitmap.new 1 1 0] : List Bitmap).getD i default).px u v) :=
  ⟨⟨List.cons_ne_nil _ _,
      fun b hb => by rw [List.mem_singleton] at hb; rw [hb]; rfl,
      Nat.zero_lt_one,
      fun b hb => by rw [List.mem_singleton] at hb; rw [hb]; exact Nat.zero_lt_one,
      Nat.le_refl 1⟩,
    (claim4_no_overlap_in_bounds [Bitmap.new 1 1 0] 1 1 (List.cons_ne_nil _ _)
      (fun b hb => by rw [List.mem_singleton] at hb; rw [hb]; rfl)
      Nat.zero_lt_one
      (fun b hb => by rw [List.mem_singleton] at hb; rw [hb]; exact Nat.zero_lt_one)
      (Nat.le_refl 1)).2.2⟩

end PdfGrid
